import Mathlib

/-!
Verification of the note-keeper backend's in-memory notes repository
(`src/api/repositories/notes_repository.py`) against its specification.

The Python store is a `dict[str, Note]`; Python dicts preserve insertion
order, an assignment to an existing key keeps its position, and `pop`
removes the entry.  We embed the store as an association list
`List (String × Note)` with operations mirroring those dict semantics.
Timestamps (`datetime.utcnow()`) are embedded as natural numbers supplied
explicitly to each operation; the freshly generated UUID of `create` is
likewise an explicit argument.
-/

namespace NotesRepo

/-- The `Note` pydantic model (`note_models.py`): `content` is `Optional[str]`,
`tags` a plain list; timestamps are embedded as `Nat`. -/
structure Note where
  id : String
  title : String
  content : Option String
  tags : List String
  created_at : Nat
  updated_at : Nat
  deriving Repr, DecidableEq

/-- The `NoteCreate` pydantic model: required `title`, optional `content`,
`tags` defaulting to `[]` (the default is applied at the model boundary,
so the field itself is a plain list). -/
structure NoteCreate where
  title : String
  content : Option String
  tags : List String
  deriving Repr, DecidableEq

/-- The `NoteUpdate` pydantic model: every field optional, `None` meaning
"not supplied" (pydantic cannot distinguish an explicit `null` from an
absent field here). -/
structure NoteUpdate where
  title : Option String
  content : Option String
  tags : Option (List String)
  deriving Repr, DecidableEq

/-- The store `self._items : dict[str, Note]`, as an insertion-ordered
association list. -/
abbrev Store := List (String × Note)

/-- `dict.get(k)` / `k in dict`: first (and, for stores built by the
repository, only) binding of the key. -/
def dictGet (k : String) : Store → Option Note
  | [] => none
  | (k', v) :: rest => if k' = k then some v else dictGet k rest

/-- `dict[k] = v`: replace the binding in place if the key is present
(keeping its position, as Python dicts do), otherwise append at the end. -/
def dictSet (k : String) (v : Note) : Store → Store
  | [] => [(k, v)]
  | (k', v') :: rest =>
      if k' = k then (k, v) :: rest else (k', v') :: dictSet k v rest

/-- `dict.pop(k, None)`, keeping only the removal effect: drop the binding
of `k` if present. -/
def dictPop (k : String) : Store → Store
  | [] => []
  | (k', v') :: rest => if k' = k then rest else (k', v') :: dictPop k rest

/-- Python's `str.lower()` on the character sequence of a string. -/
def lowerStr (s : String) : List Char := s.data.map Char.toLower

/-- Python's substring test `q in s` on character lists. -/
def isSub (q : List Char) : List Char → Bool
  | [] => q.isEmpty
  | c :: t => q.isPrefixOf (c :: t) || isSub q t

/-- The filter predicate of `InMemoryNotesRepository.list`:
`q_lower in n.title.lower() or (n.content and q_lower in n.content.lower())`.
Python truthiness makes an empty-string `content` short-circuit to false. -/
def matchesQ (q : String) (n : Note) : Bool :=
  isSub (lowerStr q) (lowerStr n.title) ||
    (match n.content with
     | some c => !c.isEmpty && isSub (lowerStr q) (lowerStr c)
     | none => false)

/-- `InMemoryNotesRepository.create`: builds the note with the freshly
generated id, `tags = data.tags or []`, both timestamps set to `now`,
stores it and returns it. -/
def create (s : Store) (data : NoteCreate) (newId : String) (now : Nat) :
    Note × Store :=
  let note : Note :=
    { id := newId
      title := data.title
      content := data.content
      tags := if data.tags.isEmpty then [] else data.tags
      created_at := now
      updated_at := now }
  (note, dictSet newId note s)

/-- `InMemoryNotesRepository.get`: `self._items.get(note_id)`. -/
def get (s : Store) (note_id : String) : Option Note :=
  dictGet note_id s

/-- `InMemoryNotesRepository.list`: optional case-insensitive substring
filter (`if q:` skips the filter for `None` and for the empty string),
`total` before pagination, then the slice `items[offset : offset + limit]`. -/
def list (s : Store) (q : Option String) (limit offset : Nat) :
    Nat × List Note :=
  let items := s.map Prod.snd
  let items :=
    match q with
    | none => items
    | some qs => if qs.isEmpty then items else items.filter (matchesQ qs)
  (items.length, (items.drop offset).take limit)

/-- `InMemoryNotesRepository.replace`: absent id gives `None`; otherwise a
fresh record with the caller's fields, the original `created_at` and
`updated_at = now` is stored and returned. -/
def replace (s : Store) (note_id : String) (data : NoteCreate) (now : Nat) :
    Option Note × Store :=
  match dictGet note_id s with
  | none => (none, s)
  | some old =>
      let note : Note :=
        { id := note_id
          title := data.title
          content := data.content
          tags := if data.tags.isEmpty then [] else data.tags
          created_at := old.created_at
          updated_at := now }
      (some note, dictSet note_id note s)

/-- `InMemoryNotesRepository.update`: absent id gives `None`; otherwise
`model_copy` keeps every field whose update value is `None`, refreshes
`updated_at`, stores and returns the result. -/
def update (s : Store) (note_id : String) (data : NoteUpdate) (now : Nat) :
    Option Note × Store :=
  match dictGet note_id s with
  | none => (none, s)
  | some note =>
      let updated : Note :=
        { note with
          title := match data.title with | some t => t | none => note.title
          content := match data.content with | some c => some c | none => note.content
          tags := match data.tags with | some t => t | none => note.tags
          updated_at := now }
      (some updated, dictSet note_id updated s)

/-- `InMemoryNotesRepository.delete`:
`self._items.pop(note_id, None) is not None`. -/
def delete (s : Store) (note_id : String) : Bool × Store :=
  ((dictGet note_id s).isSome, dictPop note_id s)

/-- The spec's filter condition for `list`, stated from its words: the
note's `title` or `content` contains the query as a case-insensitive
substring (an absent `content` contains nothing). -/
def specMatches (q : String) (n : Note) : Bool :=
  isSub (lowerStr q) (lowerStr n.title) ||
    (match n.content with
     | some c => isSub (lowerStr q) (lowerStr c)
     | none => false)

/-- A store reachable through the repository binds each key at most once,
as a Python dict does. -/
def keysNodup (s : Store) : Prop := (s.map Prod.fst).Nodup

/-- The data-model invariant of §3: every live note has
`created_at ≤ updated_at`. -/
def storeInv (s : Store) : Prop :=
  ∀ p ∈ s, p.2.created_at ≤ p.2.updated_at

/-- A non-decreasing clock: every timestamp already in the store is at most
the time `now` the next operation observes. -/
def timeBound (s : Store) (now : Nat) : Prop :=
  ∀ p ∈ s, p.2.updated_at ≤ now

theorem dictGet_dictSet_self (k : String) (v : Note) (s : Store) :
    dictGet k (dictSet k v s) = some v := by
  induction s with
  | nil => simp [dictGet, dictSet]
  | cons p rest ih =>
      obtain ⟨a, w⟩ := p
      by_cases h : a = k
      · simp [dictGet, dictSet, h]
      · simp [dictGet, dictSet, h, ih]

theorem dictGet_dictSet_ne (j k : String) (v : Note) (s : Store)
    (hjk : j ≠ k) : dictGet j (dictSet k v s) = dictGet j s := by
  have hkj : ¬ k = j := fun e => hjk e.symm
  induction s with
  | nil => simp [dictGet, dictSet, hkj]
  | cons p rest ih =>
      obtain ⟨a, w⟩ := p
      by_cases h : a = k
      · simp [dictGet, dictSet, h, hkj]
      · by_cases h' : a = j <;> simp [dictGet, dictSet, h, h', ih, hjk]

theorem dictGet_dictPop_ne (j k : String) (s : Store) (hjk : j ≠ k) :
    dictGet j (dictPop k s) = dictGet j s := by
  have hkj : ¬ k = j := fun e => hjk e.symm
  induction s with
  | nil => simp [dictGet, dictPop]
  | cons p rest ih =>
      obtain ⟨a, w⟩ := p
      by_cases h : a = k
      · simp [dictGet, dictPop, h, hkj]
      · by_cases h' : a = j <;> simp [dictGet, dictPop, h, h', ih, hjk]

theorem dictGet_eq_none_of_not_mem (k : String) (s : Store)
    (h : k ∉ s.map Prod.fst) : dictGet k s = none := by
  induction s with
  | nil => rfl
  | cons p rest ih =>
      obtain ⟨a, w⟩ := p
      simp only [List.map_cons, List.mem_cons] at h
      push_neg at h
      have hak : ¬ a = k := fun e => h.1 e.symm
      simp [dictGet, hak, ih h.2]

theorem dictGet_dictPop_self (k : String) (s : Store) (hnd : keysNodup s) :
    dictGet k (dictPop k s) = none := by
  induction s with
  | nil => rfl
  | cons p rest ih =>
      obtain ⟨a, w⟩ := p
      simp only [keysNodup, List.map_cons, List.nodup_cons] at hnd
      by_cases h : a = k
      · subst h
        simp only [dictPop, if_pos rfl]
        exact dictGet_eq_none_of_not_mem _ _ hnd.1
      · simp [dictPop, dictGet, h, ih hnd.2]

theorem dictGet_isSome_iff (k : String) (s : Store) :
    (dictGet k s).isSome = true ↔ k ∈ s.map Prod.fst := by
  induction s with
  | nil => simp [dictGet]
  | cons p rest ih =>
      obtain ⟨a, w⟩ := p
      by_cases h : a = k
      · simp [dictGet, h]
      · have hka : ¬ k = a := fun e => h e.symm
        simp [dictGet, h, hka, ih]

theorem mem_dictSet (k : String) (v : Note) (s : Store) (p : String × Note)
    (hp : p ∈ dictSet k v s) : p = (k, v) ∨ p ∈ s := by
  induction s with
  | nil => simpa [dictSet] using hp
  | cons q rest ih =>
      obtain ⟨a, w⟩ := q
      by_cases h : a = k
      · subst h
        simp only [dictSet, eq_self_iff_true, if_true, List.mem_cons] at hp
        rcases hp with hp | hp
        · exact Or.inl hp
        · exact Or.inr (List.mem_cons_of_mem _ hp)
      · simp only [dictSet, if_neg h, List.mem_cons] at hp
        rcases hp with hp | hp
        · exact Or.inr (by simp [hp])
        · rcases ih hp with hp | hp
          · exact Or.inl hp
          · exact Or.inr (List.mem_cons_of_mem _ hp)

theorem mem_dictPop (k : String) (s : Store) (p : String × Note)
    (hp : p ∈ dictPop k s) : p ∈ s := by
  induction s with
  | nil => simp [dictPop] at hp
  | cons q rest ih =>
      obtain ⟨a, w⟩ := q
      by_cases h : a = k
      · subst h
        simp only [dictPop, eq_self_iff_true, if_true] at hp
        exact List.mem_cons_of_mem _ hp
      · simp only [dictPop, if_neg h, List.mem_cons] at hp
        rcases hp with hp | hp
        · simp [hp]
        · exact List.mem_cons_of_mem _ (ih hp)

theorem dictGet_mem (k : String) (s : Store) (v : Note)
    (h : dictGet k s = some v) : (k, v) ∈ s := by
  induction s with
  | nil => simp [dictGet] at h
  | cons p rest ih =>
      obtain ⟨a, w⟩ := p
      by_cases hk : a = k
      · subst hk
        simp only [dictGet, eq_self_iff_true, if_true, Option.some_inj] at h
        subst h
        simp
      · simp only [dictGet, if_neg hk] at h
        exact List.mem_cons_of_mem _ (ih h)

/-- Concrete data for witness instances. -/
def n1 : Note :=
  { id := "a", title := "Shopping", content := some "buy milk",
    tags := ["home"], created_at := 1, updated_at := 2 }

/-- Concrete data for witness instances. -/
def n2 : Note :=
  { id := "b", title := "Work", content := some "finish report",
    tags := [], created_at := 3, updated_at := 3 }

/-- A concrete two-note store for witness instances. -/
def s2 : Store := [("a", n1), ("b", n2)]

/-- A concrete one-note store for witness instances. -/
def s1 : Store := [("a", n1)]

/-- A concrete draft for witness instances. -/
def c0 : NoteCreate := { title := "T", content := none, tags := [] }

/-- A concrete tags-only partial update for witness instances. -/
def d0 : NoteUpdate := { title := none, content := none, tags := some ["t"] }

/-- C5: for every store state and every draft, creating a note and then
getting it by the id of the returned note yields exactly the record
`create` returned. -/
theorem create_then_get (s : Store) (data : NoteCreate) (newId : String)
    (now : Nat) :
    get (create s data newId now).2 (create s data newId now).1.id =
      some (create s data newId now).1 := by
  simp [create, get, dictGet_dictSet_self]

/-- C8: every note returned by `create` has `created_at` equal to
`updated_at`. -/
theorem create_timestamps_equal (s : Store) (data : NoteCreate)
    (newId : String) (now : Nat) :
    (create s data newId now).1.created_at =
      (create s data newId now).1.updated_at := rfl

/-- C6: every mutating operation (`create`, `replace`, `update`, `delete`)
leaves the binding of every key other than the one it targets unchanged;
as pure functions on the store, the operations have no effect outside it. -/
theorem mutators_frame (s : Store) (k : String) :
    (∀ data newId now, k ≠ newId →
        dictGet k (create s data newId now).2 = dictGet k s) ∧
    (∀ note_id data now, k ≠ note_id →
        dictGet k (replace s note_id data now).2 = dictGet k s) ∧
    (∀ note_id data now, k ≠ note_id →
        dictGet k (update s note_id data now).2 = dictGet k s) ∧
    (∀ note_id, k ≠ note_id →
        dictGet k (delete s note_id).2 = dictGet k s) := by
  refine ⟨?_, ?_, ?_, ?_⟩
  · intro data newId now hk
    simp [create, dictGet_dictSet_ne _ _ _ _ hk]
  · intro note_id data now hk
    cases h : dictGet note_id s with
    | none => simp [replace, h]
    | some old => simp [replace, h, dictGet_dictSet_ne _ _ _ _ hk]
  · intro note_id data now hk
    cases h : dictGet note_id s with
    | none => simp [update, h]
    | some old => simp [update, h, dictGet_dictSet_ne _ _ _ _ hk]
  · intro note_id hk
    simp [delete, dictGet_dictPop_ne _ _ _ hk]

/-- Witness for C6 at a concrete store and keys. -/
theorem mutators_frame_witness :
    dictGet "a" (create s1 c0 "b" 3).2 = dictGet "a" s1 ∧
    dictGet "a" (replace s1 "b" c0 3).2 = dictGet "a" s1 ∧
    dictGet "a" (update s1 "b" d0 3).2 = dictGet "a" s1 ∧
    dictGet "a" (delete s1 "b").2 = dictGet "a" s1 :=
  ⟨(mutators_frame s1 "a").1 c0 "b" 3 (by decide),
   (mutators_frame s1 "a").2.1 "b" c0 3 (by decide),
   (mutators_frame s1 "a").2.2.1 "b" d0 3 (by decide),
   (mutators_frame s1 "a").2.2.2 "b" (by decide)⟩

/-- C4: `delete` returns `true` exactly when the id was present, removes the
note, and afterwards `get`, `update`, `replace` report absence (leaving the
store unchanged) and `delete` reports `false`, until the id is stored
again. -/
theorem delete_absence (s : Store) (hnd : keysNodup s) (note_id : String)
    (d : NoteUpdate) (c : NoteCreate) (now : Nat) :
    ((delete s note_id).1 = true ↔ (get s note_id).isSome = true) ∧
    get (delete s note_id).2 note_id = none ∧
    update (delete s note_id).2 note_id d now = (none, (delete s note_id).2) ∧
    replace (delete s note_id).2 note_id c now = (none, (delete s note_id).2) ∧
    (delete (delete s note_id).2 note_id).1 = false := by
  have habs : dictGet note_id (dictPop note_id s) = none :=
    dictGet_dictPop_self note_id s hnd
  refine ⟨Iff.rfl, ?_, ?_, ?_, ?_⟩
  · simpa [delete, get] using habs
  · simp [delete, update, habs]
  · simp [delete, replace, habs]
  · simp [delete, habs]

/-- Witness for C4 at a concrete store. -/
theorem delete_absence_witness :
    keysNodup s2 ∧
    (((delete s2 "b").1 = true ↔ (get s2 "b").isSome = true) ∧
     get (delete s2 "b").2 "b" = none ∧
     update (delete s2 "b").2 "b" d0 7 = (none, (delete s2 "b").2) ∧
     replace (delete s2 "b").2 "b" c0 7 = (none, (delete s2 "b").2) ∧
     (delete (delete s2 "b").2 "b").1 = false) :=
  ⟨by unfold keysNodup; decide, delete_absence s2 (by unfold keysNodup; decide) "b" d0 c0 7⟩

theorem tags_or_nil (l : List String) :
    (if l.isEmpty then ([] : List String) else l) = l := by
  cases l <;> simp

/-- C7: `created_at ≤ updated_at` holds for every live note and is preserved
by every store-modifying operation, assuming the clock is non-decreasing
(every timestamp already stored is at most the operation's `now`); `get` and
`list` do not modify the store, so they preserve it trivially. -/
theorem timestamps_inv_preserved (s : Store) (now : Nat)
    (hinv : storeInv s) (hb : timeBound s now) :
    (∀ data newId, storeInv (create s data newId now).2) ∧
    (∀ note_id data, storeInv (replace s note_id data now).2) ∧
    (∀ note_id data, storeInv (update s note_id data now).2) ∧
    (∀ note_id, storeInv (delete s note_id).2) := by
  refine ⟨?_, ?_, ?_, ?_⟩
  · intro data newId p hp
    simp only [create] at hp
    rcases mem_dictSet _ _ _ _ hp with h | h
    · subst h; simp
    · exact hinv p h
  · intro note_id data p hp
    cases h : dictGet note_id s with
    | none => simp only [replace, h] at hp; exact hinv p hp
    | some old =>
        have hmem : (note_id, old) ∈ s := dictGet_mem _ _ _ h
        have h1 : old.created_at ≤ old.updated_at := hinv _ hmem
        have h2 : old.updated_at ≤ now := hb _ hmem
        simp only [replace, h] at hp
        rcases mem_dictSet _ _ _ _ hp with h' | h'
        · subst h'; simpa using le_trans h1 h2
        · exact hinv p h'
  · intro note_id data p hp
    cases h : dictGet note_id s with
    | none => simp only [update, h] at hp; exact hinv p hp
    | some old =>
        have hmem : (note_id, old) ∈ s := dictGet_mem _ _ _ h
        have h1 : old.created_at ≤ old.updated_at := hinv _ hmem
        have h2 : old.updated_at ≤ now := hb _ hmem
        simp only [update, h] at hp
        rcases mem_dictSet _ _ _ _ hp with h' | h'
        · subst h'; simpa using le_trans h1 h2
        · exact hinv p h'
  · intro note_id p hp
    exact hinv p (mem_dictPop _ _ _ hp)

/-- Witness for C7 at a concrete store and time. -/
theorem timestamps_inv_preserved_witness :
    storeInv s1 ∧ timeBound s1 7 ∧
    storeInv (create s1 c0 "b" 7).2 ∧ storeInv (update s1 "a" d0 7).2 ∧
    storeInv (replace s1 "a" c0 7).2 ∧ storeInv (delete s1 "a").2 :=
  ⟨by unfold storeInv; decide, by unfold timeBound; decide,
   (timestamps_inv_preserved s1 7 (by unfold storeInv; decide)
      (by unfold timeBound; decide)).1 c0 "b",
   (timestamps_inv_preserved s1 7 (by unfold storeInv; decide)
      (by unfold timeBound; decide)).2.2.1 "a" d0,
   (timestamps_inv_preserved s1 7 (by unfold storeInv; decide)
      (by unfold timeBound; decide)).2.1 "a" c0,
   (timestamps_inv_preserved s1 7 (by unfold storeInv; decide)
      (by unfold timeBound; decide)).2.2.2 "a"⟩

/-- C2: for a present id, `update` applies exactly the supplied (non-`None`)
fields, keeps every unset field (so a tags-only update keeps `title` and
`content`), preserves `created_at`, sets `updated_at = now`, stores the
result and returns it; for an absent id it returns `none` and leaves the
store unchanged. -/
theorem update_partial_fields (s : Store) (note_id : String) (d : NoteUpdate)
    (now : Nat) :
    (∀ old u, dictGet note_id s = some old →
        (update s note_id d now).1 = some u →
        u.id = old.id ∧
        u.title = (match d.title with | some t => t | none => old.title) ∧
        u.content = (match d.content with | some c => some c | none => old.content) ∧
        u.tags = (match d.tags with | some t => t | none => old.tags) ∧
        u.created_at = old.created_at ∧
        u.updated_at = now ∧
        get (update s note_id d now).2 note_id = some u) ∧
    ((get s note_id).isSome = true → ((update s note_id d now).1).isSome = true) ∧
    (dictGet note_id s = none → update s note_id d now = (none, s)) := by
  refine ⟨?_, ?_, ?_⟩
  · intro old u hold hu
    simp only [update, hold] at hu ⊢
    obtain rfl := Option.some.inj hu
    exact ⟨rfl, rfl, rfl, rfl, rfl, rfl, by
      simp [get, dictGet_dictSet_self]⟩
  · intro h
    simp only [get] at h
    obtain ⟨old, hold⟩ := Option.isSome_iff_exists.mp h
    simp [update, hold]
  · intro h
    simp [update, h]

/-- The note produced by the C2 witness update. -/
def u1 : Note :=
  { id := "a", title := "Shopping", content := some "buy milk",
    tags := ["t"], created_at := 1, updated_at := 7 }

/-- Witness for C2: a tags-only update of a concrete note. -/
theorem update_partial_fields_witness :
    dictGet "a" s1 = some n1 ∧ (update s1 "a" d0 7).1 = some u1 ∧
    (u1.id = n1.id ∧ u1.title = n1.title ∧ u1.content = n1.content ∧
     u1.tags = ["t"] ∧ u1.created_at = n1.created_at ∧ u1.updated_at = 7 ∧
     get (update s1 "a" d0 7).2 "a" = some u1) :=
  ⟨by decide, by decide,
   (update_partial_fields s1 "a" d0 7).1 n1 u1 (by decide) (by decide)⟩

/-- C3: for a present id, `replace` overwrites `title`, `content` and `tags`
wholesale with the draft's values, preserves the original `created_at`,
sets `updated_at = now`, stores the result and returns it; for an absent id
it returns `none` and leaves the store unchanged. -/
theorem replace_wholesale (s : Store) (note_id : String) (data : NoteCreate)
    (now : Nat) :
    (∀ old u, dictGet note_id s = some old →
        (replace s note_id data now).1 = some u →
        u.id = note_id ∧
        u.title = data.title ∧
        u.content = data.content ∧
        u.tags = data.tags ∧
        u.created_at = old.created_at ∧
        u.updated_at = now ∧
        get (replace s note_id data now).2 note_id = some u) ∧
    ((get s note_id).isSome = true → ((replace s note_id data now).1).isSome = true) ∧
    (dictGet note_id s = none → replace s note_id data now = (none, s)) := by
  refine ⟨?_, ?_, ?_⟩
  · intro old u hold hu
    simp only [replace, hold] at hu ⊢
    obtain rfl := Option.some.inj hu
    exact ⟨rfl, rfl, rfl, tags_or_nil data.tags, rfl, rfl, by
      simp [get, dictGet_dictSet_self]⟩
  · intro h
    simp only [get] at h
    obtain ⟨old, hold⟩ := Option.isSome_iff_exists.mp h
    simp [replace, hold]
  · intro h
    simp [replace, h]

/-- The note produced by the C3 witness replace. -/
def u2 : Note :=
  { id := "a", title := "T", content := none,
    tags := [], created_at := 1, updated_at := 7 }

/-- Witness for C3: replacing a concrete note wholesale. -/
theorem replace_wholesale_witness :
    dictGet "a" s1 = some n1 ∧ (replace s1 "a" c0 7).1 = some u2 ∧
    (u2.id = "a" ∧ u2.title = c0.title ∧ u2.content = c0.content ∧
     u2.tags = c0.tags ∧ u2.created_at = n1.created_at ∧ u2.updated_at = 7 ∧
     get (replace s1 "a" c0 7).2 "a" = some u2) :=
  ⟨by decide, by decide,
   (replace_wholesale s1 "a" c0 7).1 n1 u2 (by decide) (by decide)⟩

/-- C10: `update` applies a field exactly when its value is non-null
(pydantic collapses an absent field and an explicit `null` to `None`), so a
null field retains the prior value and a non-null `content` can never be
cleared back to null by `update`. -/
theorem update_null_means_unset (s : Store) (note_id : String)
    (d : NoteUpdate) (now : Nat) :
    ∀ old u, dictGet note_id s = some old →
      (update s note_id d now).1 = some u →
      (d.title = none → u.title = old.title) ∧
      (d.content = none → u.content = old.content) ∧
      (d.tags = none → u.tags = old.tags) ∧
      (old.content.isSome = true → u.content.isSome = true) := by
  intro old u hold hu
  simp only [update, hold] at hu
  obtain rfl := Option.some.inj hu
  refine ⟨?_, ?_, ?_, ?_⟩ <;> intro h
  · simp [h]
  · simp [h]
  · simp [h]
  · cases hd : d.content with
    | some c => simp [hd]
    | none => simpa [hd] using h

/-- Witness for C10: the tags-only update `d0` (null `title`/`content`)
keeps `title` and `content` of a concrete note, and its non-null content
stays non-null. -/
theorem update_null_means_unset_witness :
    dictGet "a" s1 = some n1 ∧ (update s1 "a" d0 7).1 = some u1 ∧
    u1.title = n1.title ∧ u1.content = n1.content ∧
    u1.content.isSome = true :=
  ⟨by decide, by decide,
   ((update_null_means_unset s1 "a" d0 7) n1 u1 (by decide) (by decide)).1 rfl,
   ((update_null_means_unset s1 "a" d0 7) n1 u1 (by decide) (by decide)).2.1 rfl,
   ((update_null_means_unset s1 "a" d0 7) n1 u1 (by decide) (by decide)).2.2.2
     (by decide)⟩

/-- The C9 counterexample note: last updated at time 5. -/
def n9 : Note :=
  { id := "a", title := "x", content := none, tags := [],
    created_at := 5, updated_at := 5 }

/-- The C9 counterexample store. -/
def s9 : Store := [("a", n9)]

/-- The C9 counterexample payload: a genuine title change, not a no-op. -/
def d9 : NoteUpdate := { title := some "y", content := none, tags := none }

/-- The note the C9 counterexample update returns. -/
def u9 : Note :=
  { id := "a", title := "y", content := none, tags := [],
    created_at := 5, updated_at := 5 }

/-- C9 counterexample: `update` (and `replace`) set `updated_at` to the
clock value `now`, whatever it is.  When the clock has not advanced past
the note's current `updated_at` (here `now = 5` equals it, which
`datetime.utcnow()`'s finite resolution permits), a successful update that
genuinely changes a field leaves `updated_at` equal — so `updated_at` does
not strictly increase and the update is not a no-op, refuting the claim as
stated. -/
theorem updated_at_strict_counterexample :
    (update s9 "a" d9 5).1 = some u9 ∧
    ¬ (n9.updated_at < u9.updated_at ∨
        (u9.title = n9.title ∧ u9.content = n9.content ∧
         u9.tags = n9.tags)) := by decide

/-- C9 amended: assuming the clock strictly advanced past the note's current
`updated_at`, `updated_at` strictly increases after any successful `replace`
or `update` of that note (no-op payloads included). -/
theorem updated_at_strict_increase (s : Store) (note_id : String) (now : Nat)
    (old : Note) (hold : dictGet note_id s = some old)
    (hclock : old.updated_at < now) :
    (∀ d u, (update s note_id d now).1 = some u →
        old.updated_at < u.updated_at) ∧
    (∀ c u, (replace s note_id c now).1 = some u →
        old.updated_at < u.updated_at) := by
  constructor
  · intro d u hu
    simp only [update, hold] at hu
    obtain rfl := Option.some.inj hu
    simpa using hclock
  · intro c u hu
    simp only [replace, hold] at hu
    obtain rfl := Option.some.inj hu
    simpa using hclock

/-- Witness for the amended C9 at a concrete store and a later clock. -/
theorem updated_at_strict_increase_witness :
    dictGet "a" s1 = some n1 ∧ n1.updated_at < 7 ∧
    n1.updated_at < u1.updated_at ∧ n1.updated_at < u2.updated_at :=
  ⟨by decide, by decide,
   (updated_at_strict_increase s1 "a" 7 n1 (by decide) (by decide)).1 d0 u1
     (by decide),
   (updated_at_strict_increase s1 "a" 7 n1 (by decide) (by decide)).2 c0 u2
     (by decide)⟩

theorem lowerStr_ne_nil (q : String) (hq : q ≠ "") : lowerStr q ≠ [] := by
  cases q with
  | mk l =>
      cases l with
      | nil => exact absurd rfl hq
      | cons c t => simp [lowerStr]

theorem isSub_nil (l : List Char) (h : l ≠ []) : isSub l [] = false := by
  cases l with
  | nil => exact absurd rfl h
  | cons a t => simp [isSub]

/-- For a non-empty query, the code's filter predicate (with Python's
truthiness check on `content`) agrees with the spec's case-insensitive
substring condition. -/
theorem matchesQ_eq_specMatches (q : String) (hq : q ≠ "") (n : Note) :
    matchesQ q n = specMatches q n := by
  have hlq : lowerStr q ≠ [] := lowerStr_ne_nil q hq
  unfold matchesQ specMatches
  cases hc : n.content with
  | none => rfl
  | some c =>
      by_cases he : c = ""
      · subst he
        have h1 : isSub (lowerStr q) (lowerStr "") = false := by
          have h0 : lowerStr "" = [] := rfl
          rw [h0]
          exact isSub_nil _ hlq
        have h2 : String.isEmpty "" = true := rfl
        simp [h1, h2]
      · have h3 : c.isEmpty = false := by
          rw [Bool.eq_false_iff]
          intro h
          exact he ((String.isEmpty_iff c).mp h)
        simp [h3]

/-- C1: for every store and non-empty query, `list` returns as `total` the
count of stored notes whose `title` or `content` contains the query
case-insensitively — counted before pagination — and as items the slice
`[offset, offset + limit)` of that filtered, insertion-ordered sequence; an
offset at or beyond the end of the filtered sequence yields `[]`, not an
error. -/
theorem list_query_spec (s : Store) (q : String) (hq : q ≠ "")
    (limit offset : Nat) :
    list s (some q) limit offset =
      (((s.map Prod.snd).filter (specMatches q)).length,
       (((s.map Prod.snd).filter (specMatches q)).drop offset).take limit) ∧
    (((s.map Prod.snd).filter (specMatches q)).length ≤ offset →
      (list s (some q) limit offset).2 = []) := by
  have hemp : q.isEmpty = false := by
    rw [Bool.eq_false_iff]
    intro h
    exact hq ((String.isEmpty_iff q).mp h)
  have hfil : (s.map Prod.snd).filter (matchesQ q) =
      (s.map Prod.snd).filter (specMatches q) :=
    List.filter_congr (fun n _ => matchesQ_eq_specMatches q hq n)
  constructor
  · simp [list, hemp, hfil]
  · intro h
    simp [list, hemp, hfil, List.drop_eq_nil_of_le h]

/-- Witness for C1: the spec's own example (`q = "milk"` over the
Shopping/Work store), plus an offset past the end of the filtered
sequence. -/
theorem list_query_spec_witness :
    (("milk" : String) ≠ "" ∧
      list s2 (some "milk") 20 0 =
        (((s2.map Prod.snd).filter (specMatches "milk")).length,
         (((s2.map Prod.snd).filter (specMatches "milk")).drop 0).take 20)) ∧
    (((s2.map Prod.snd).filter (specMatches "milk")).length ≤ 5 ∧
      (list s2 (some "milk") 20 5).2 = []) :=
  ⟨⟨by decide, (list_query_spec s2 "milk" (by decide) 20 0).1⟩,
   ⟨by decide, (list_query_spec s2 "milk" (by decide) 20 5).2 (by decide)⟩⟩

end NotesRepo

